import Mathlib

/-!
Verification of the traceable extraction-and-citation core of the
Traceable Context Engine repository (`app.py`, `server.py`,
`test_retry.py`).

The Python code is shallowly embedded: a parsed PDF document is the list
of per-page block lists that the PyMuPDF collaborator reports (`page.get_text("blocks")`),
where of each block tuple only the fields the code reads are modelled:
`block[4]` (the text) and `block[6]` (the block type, `0` = text).
Python dicts over string keys are modelled as insertion-ordered
association lists with overwrite-on-existing-key semantics, which is
exactly the observable behaviour of a `dict` built by repeated
`d[k] = v` assignment.  Python's `str.strip()` is modelled by `pyStrip`
below (removal of leading and trailing ASCII whitespace).
-/

/-- The ASCII whitespace characters `str.strip()` removes:
space, tab, newline, carriage return, vertical tab, form feed. -/
def pyWhitespace (c : Char) : Bool :=
  c == ' ' || c == '\t' || c == '\n' || c == '\r' || c == '\x0b' || c == '\x0c'

/-- Python `str.strip()`: drop leading and trailing whitespace. -/
def pyStrip (s : String) : String :=
  String.mk (((s.data.dropWhile pyWhitespace).reverse.dropWhile pyWhitespace).reverse)

/-- One entry of the list returned by `page.get_text("blocks")`.
Only the two fields the repository reads are modelled:
`text` is `block[4]`, `btype` is `block[6]` (0 means text block). -/
structure PdfBlock where
  text : String
  btype : Nat
deriving DecidableEq, Repr

/-- A page, as the parser reports it: its block list in reading order. -/
abbrev PdfPage := List PdfBlock

/-- A parsed document: its pages in document order. -/
abbrev PdfDoc := List PdfPage

/-- Python `dict` membership-preserving insert: `d[k] = v` overwrites the
binding of `k` when present (keeping its position) and appends otherwise. -/
def dictInsert (m : List (String × String)) (k v : String) : List (String × String) :=
  if m.any (fun kv => kv.1 == k) then
    m.map (fun kv => if kv.1 == k then (k, v) else kv)
  else
    m ++ [(k, v)]

/-- Python `dict` lookup `d.get(k)`: first (= only) binding of `k`. -/
def dictLookup (m : List (String × String)) (k : String) : Option String :=
  (m.find? (fun kv => kv.1 == k)).map (fun kv => kv.2)

/-- The tag minted in `app.py` line 39 / `server.py` line 43:
`f"[[P{p_num}_{i}]]"` with `p_num` the 1-based page number and `i` the
0-based index of the block in the raw per-page block list. -/
def mkTag (p i : Nat) : String :=
  "[[P" ++ Nat.repr p ++ "_" ++ Nat.repr i ++ "]]"

/-- The inner `for i, block in enumerate(blocks)` loop of
`extract_and_tag_pdf` (`app.py` lines 32-45, `server.py` lines 39-45):
`i` is the running raw block index, the accumulator carries the
`tagged_text` string and the `source_map` dict built so far. -/
def tagBlocks (p : Nat) : List PdfBlock → Nat → String × List (String × String) →
    String × List (String × String)
  | [], _, acc => acc
  | b :: rest, i, (tt, sm) =>
    if b.btype = 0 then
      let text := pyStrip b.text
      if text = "" then
        tagBlocks p rest (i + 1) (tt, sm)
      else
        let tag := mkTag p i
        tagBlocks p rest (i + 1)
          (tt ++ tag ++ " " ++ text ++ "\n\n", dictInsert sm tag text)
    else
      tagBlocks p rest (i + 1) (tt, sm)

/-- The outer `for page_num, page in enumerate(doc)` loop of
`extract_and_tag_pdf`: `pnum` is the 1-based page number `p_num`. -/
def tagPages : List PdfPage → Nat → String × List (String × String) →
    String × List (String × String)
  | [], _, acc => acc
  | pg :: rest, pnum, acc => tagPages rest (pnum + 1) (tagBlocks pnum pg 0 acc)

/-- `extract_and_tag_pdf` of `app.py` (lines 17-47), applied to the
parsed document: returns `(tagged_text, source_map)`. -/
def extract_and_tag_pdf (doc : PdfDoc) : String × List (String × String) :=
  tagPages doc 1 ("", [])

/-- `extract_and_tag_pdf` of `server.py` (lines 26-47).  Its loop body is
token-identical to the `app.py` one; it additionally returns
`page_count = len(doc)`. -/
def extract_and_tag_pdf_server (doc : PdfDoc) :
    String × List (String × String) × Nat :=
  let r := tagPages doc 1 ("", [])
  (r.1, r.2, doc.length)

/-- A block survives the filter of `extract_and_tag_pdf` when it is a
text block (`block[6] == 0`) whose stripped text is non-empty. -/
def survives (b : PdfBlock) : Bool :=
  b.btype == 0 && !(pyStrip b.text == "")

/-- Specification-level view of the inner loop from raw index `i` on:
the ordered `(tag, stripped text)` pairs minted for the surviving
blocks, each tag carrying the block's raw (unfiltered) index. -/
def pageItemsFrom (p : Nat) : Nat → List PdfBlock → List (String × String)
  | _, [] => []
  | i, b :: rest =>
    if survives b then
      (mkTag p i, pyStrip b.text) :: pageItemsFrom p (i + 1) rest
    else
      pageItemsFrom p (i + 1) rest

/-- Specification-level view of a whole document from page number `pnum`
on: the minted `(tag, text)` pairs in page-then-block order. -/
def docItemsFrom : Nat → List PdfPage → List (String × String)
  | _, [] => []
  | pnum, pg :: rest => pageItemsFrom pnum 0 pg ++ docItemsFrom (pnum + 1) rest

/-- All `(tag, text)` pairs a document's extraction mints, in order. -/
def docItems (doc : PdfDoc) : List (String × String) :=
  docItemsFrom 1 doc

/-- The `tagged_text` segment contributed by one minted pair:
`f"{tag} {text}\n\n"`. -/
def renderItem (it : String × String) : String :=
  it.1 ++ " " ++ it.2 ++ "\n\n"

/-- Concatenation of the segments of a list of minted pairs. -/
def renderItems : List (String × String) → String
  | [] => ""
  | it :: rest => renderItem it ++ renderItems rest

/-- Folding `dictInsert` over a list of bindings, in order. -/
def insertAll (m : List (String × String)) (l : List (String × String)) :
    List (String × String) :=
  l.foldl (fun m it => dictInsert m it.1 it.2) m

/-! ### Decimal rendering of naturals: injectivity and digit shape

`f"{n}"` renders a natural as decimal digits; in Lean this is
`Nat.repr`.  The lemmas below recover `n` from `(Nat.repr n).data` and
show every character of the rendering is a decimal digit, which is what
makes the `[[P<page>_<block>]]` identifiers collision-free. -/

lemma toDigitsCore_acc (fuel : Nat) :
    ∀ (n : Nat) (ds : List Char),
      Nat.toDigitsCore 10 fuel n ds = Nat.toDigitsCore 10 fuel n [] ++ ds := by
  induction fuel with
  | zero => intro n ds; simp [Nat.toDigitsCore]
  | succ f ih =>
    intro n ds
    simp only [Nat.toDigitsCore]
    by_cases h : n / 10 = 0
    · simp [h]
    · simp only [h, if_false]
      rw [ih (n / 10) (Nat.digitChar (n % 10) :: ds),
        ih (n / 10) [Nat.digitChar (n % 10)]]
      simp

lemma toDigitsCore_fuel :
    ∀ (n f1 f2 : Nat) (ds : List Char), n < f1 → n < f2 →
      Nat.toDigitsCore 10 f1 n ds = Nat.toDigitsCore 10 f2 n ds := by
  intro n
  induction n using Nat.strong_induction_on with
  | _ n ih =>
    intro f1 f2 ds h1 h2
    cases f1 with
    | zero => omega
    | succ f1' =>
      cases f2 with
      | zero => omega
      | succ f2' =>
        simp only [Nat.toDigitsCore]
        by_cases h : n / 10 = 0
        · simp [h]
        · simp only [h, if_false]
          have hn : 0 < n := by
            rcases Nat.eq_zero_or_pos n with h0 | h0
            · exact absurd (by simp [h0]) h
            · exact h0
          have hlt : n / 10 < n := Nat.div_lt_self hn (by norm_num)
          exact ih (n / 10) hlt f1' f2' _ (by omega) (by omega)

/-- Value of a most-significant-first decimal digit list. -/
def digitsVal (l : List Char) : Nat :=
  l.foldl (fun a c => 10 * a + (c.toNat - 48)) 0

lemma digitChar_toNat_sub (m : Nat) (h : m < 10) :
    (Nat.digitChar m).toNat - 48 = m := by
  interval_cases m <;> rfl

lemma digitsVal_toDigits :
    ∀ n : Nat, digitsVal (Nat.toDigits 10 n) = n := by
  intro n
  induction n using Nat.strong_induction_on with
  | _ n ih =>
    show digitsVal (Nat.toDigitsCore 10 (n + 1) n []) = n
    simp only [Nat.toDigitsCore]
    by_cases h : n / 10 = 0
    · have hn : n < 10 := by omega
      simp only [h, if_pos]
      show 10 * 0 + ((Nat.digitChar (n % 10)).toNat - 48) = n
      rw [digitChar_toNat_sub _ (Nat.mod_lt _ (by norm_num))]
      omega
    · simp only [h, if_false]
      have hn : 0 < n := by
        rcases Nat.eq_zero_or_pos n with h0 | h0
        · exact absurd (by simp [h0]) h
        · exact h0
      have hlt : n / 10 < n := Nat.div_lt_self hn (by norm_num)
      rw [toDigitsCore_fuel (n / 10) n (n / 10 + 1) _ hlt (Nat.lt_succ_self _),
        toDigitsCore_acc]
      show digitsVal (Nat.toDigits 10 (n / 10) ++ [Nat.digitChar (n % 10)]) = n
      unfold digitsVal
      rw [List.foldl_append]
      show 10 * digitsVal (Nat.toDigits 10 (n / 10)) +
        ((Nat.digitChar (n % 10)).toNat - 48) = n
      rw [ih (n / 10) hlt, digitChar_toNat_sub _ (Nat.mod_lt _ (by norm_num))]
      omega

lemma repr_data (n : Nat) : (Nat.repr n).data = Nat.toDigits 10 n := rfl

lemma nat_repr_inj {m n : Nat} (h : Nat.repr m = Nat.repr n) : m = n := by
  have hd : Nat.toDigits 10 m = Nat.toDigits 10 n := by
    rw [← repr_data, ← repr_data, h]
  calc m = digitsVal (Nat.toDigits 10 m) := (digitsVal_toDigits m).symm
    _ = digitsVal (Nat.toDigits 10 n) := by rw [hd]
    _ = n := digitsVal_toDigits n

lemma digitChar_isDigit (m : Nat) (h : m < 10) :
    (Nat.digitChar m).isDigit = true := by
  interval_cases m <;> rfl

lemma toDigitsCore_isDigit :
    ∀ (fuel n : Nat) (ds : List Char), (∀ c ∈ ds, c.isDigit = true) →
      ∀ c ∈ Nat.toDigitsCore 10 fuel n ds, c.isDigit = true := by
  intro fuel
  induction fuel with
  | zero => intro n ds hds; simpa [Nat.toDigitsCore] using hds
  | succ f ih =>
    intro n ds hds
    simp only [Nat.toDigitsCore]
    have hd : (Nat.digitChar (n % 10)).isDigit = true :=
      digitChar_isDigit _ (Nat.mod_lt _ (by norm_num))
    by_cases h : n / 10 = 0
    · simp only [h, if_pos]
      intro c hc
      rcases List.mem_cons.mp hc with rfl | hc
      · exact hd
      · exact hds c hc
    · simp only [h, if_false]
      refine ih (n / 10) _ ?_
      intro c hc
      rcases List.mem_cons.mp hc with rfl | hc
      · exact hd
      · exact hds c hc

lemma repr_isDigit (n : Nat) : ∀ c ∈ (Nat.repr n).data, c.isDigit = true := by
  rw [repr_data]
  exact toDigitsCore_isDigit (n + 1) n [] (by simp)

/-- Splitting at a separator that occurs in neither prefix is unambiguous. -/
lemma sep_split :
    ∀ (a c b d : List Char) (sep : Char), (∀ x ∈ a, x ≠ sep) →
      (∀ x ∈ c, x ≠ sep) → a ++ sep :: b = c ++ sep :: d → a = c ∧ b = d := by
  intro a
  induction a with
  | nil =>
    intro c b d sep _ hc h
    cases c with
    | nil => simpa using h
    | cons y c' =>
      simp only [List.nil_append, List.cons_append, List.cons.injEq] at h
      exact absurd h.1.symm (hc y (List.mem_cons_self y c'))
  | cons x a' ih =>
    intro c b d sep ha hc h
    cases c with
    | nil =>
      simp only [List.cons_append, List.nil_append, List.cons.injEq] at h
      exact absurd h.1 (ha x (List.mem_cons_self x a'))
    | cons y c' =>
      simp only [List.cons_append, List.cons.injEq] at h
      obtain ⟨rfl, h2⟩ := h
      have := ih c' b d sep (fun z hz => ha z (List.mem_cons_of_mem _ hz))
        (fun z hz => hc z (List.mem_cons_of_mem _ hz)) h2
      exact ⟨by rw [this.1], this.2⟩

lemma mkTag_inj {p i q j : Nat} (h : mkTag p i = mkTag q j) :
    p = q ∧ i = j := by
  have hd : (mkTag p i).data = (mkTag q j).data := by rw [h]
  simp only [mkTag, String.data_append] at hd
  simp only [List.append_assoc, List.cons_append, List.nil_append,
    List.singleton_append, List.cons.injEq, true_and] at hd
  have hdig : ∀ n : Nat, ∀ x ∈ (Nat.repr n).data, x ≠ '_' := by
    intro n x hx he
    have := repr_isDigit n x hx
    rw [he] at this
    exact absurd this (by decide)
  obtain ⟨hp, hrest⟩ := sep_split _ _ _ _ '_' (hdig p) (hdig q) hd
  have hdig2 : ∀ n : Nat, ∀ x ∈ (Nat.repr n).data, x ≠ ']' := by
    intro n x hx he
    have := repr_isDigit n x hx
    rw [he] at this
    exact absurd this (by decide)
  obtain ⟨hi, -⟩ := sep_split _ _ _ _ ']' (hdig2 i) (hdig2 j) hrest
  exact ⟨nat_repr_inj (String.ext hp), nat_repr_inj (String.ext hi)⟩

/-! ### Bridging the code loops to the specification-level item lists -/

lemma renderItems_cons (it : String × String) (l : List (String × String)) :
    renderItems (it :: l) = renderItem it ++ renderItems l := rfl

lemma insertAll_cons (m : List (String × String)) (it : String × String)
    (l : List (String × String)) :
    insertAll m (it :: l) = insertAll (dictInsert m it.1 it.2) l := rfl

lemma insertAll_append (m : List (String × String))
    (l1 l2 : List (String × String)) :
    insertAll m (l1 ++ l2) = insertAll (insertAll m l1) l2 := by
  simp [insertAll, List.foldl_append]

lemma renderItems_append (l1 l2 : List (String × String)) :
    renderItems (l1 ++ l2) = renderItems l1 ++ renderItems l2 := by
  induction l1 with
  | nil => simp [renderItems]
  | cons it rest ih =>
    simp only [List.cons_append, renderItems_cons, ih, String.append_assoc]

lemma tagBlocks_eq (p : Nat) :
    ∀ (blocks : List PdfBlock) (i : Nat) (tt : String)
      (sm : List (String × String)),
      tagBlocks p blocks i (tt, sm) =
        (tt ++ renderItems (pageItemsFrom p i blocks),
          insertAll sm (pageItemsFrom p i blocks)) := by
  intro blocks
  induction blocks with
  | nil => intro i tt sm; simp [tagBlocks, pageItemsFrom, renderItems, insertAll]
  | cons b rest ih =>
    intro i tt sm
    by_cases hb : b.btype = 0
    · by_cases he : pyStrip b.text = ""
      · have hs : survives b = false := by simp [survives, hb, he]
        simp only [tagBlocks, hb, if_true, he, if_pos, pageItemsFrom, hs,
          if_false, Bool.false_eq_true]
        exact ih (i + 1) tt sm
      · have hs : survives b = true := by simp [survives, hb, he]
        simp only [tagBlocks, hb, if_true, he, if_neg, pageItemsFrom, hs,
          if_false, renderItems_cons, insertAll_cons]
        rw [ih (i + 1)]
        simp [renderItem, String.append_assoc]
    · have hs : survives b = false := by simp [survives, hb]
      simp only [tagBlocks, hb, if_false, pageItemsFrom, hs,
        Bool.false_eq_true]
      exact ih (i + 1) tt sm

lemma tagPages_eq :
    ∀ (doc : List PdfPage) (pnum : Nat) (tt : String)
      (sm : List (String × String)),
      tagPages doc pnum (tt, sm) =
        (tt ++ renderItems (docItemsFrom pnum doc),
          insertAll sm (docItemsFrom pnum doc)) := by
  intro doc
  induction doc with
  | nil => intro pnum tt sm; simp [tagPages, docItemsFrom, renderItems, insertAll]
  | cons pg rest ih =>
    intro pnum tt sm
    simp only [tagPages, docItemsFrom]
    rw [tagBlocks_eq, ih, renderItems_append, insertAll_append,
      String.append_assoc]

lemma extract_eq (doc : PdfDoc) :
    extract_and_tag_pdf doc =
      (renderItems (docItems doc), insertAll [] (docItems doc)) := by
  unfold extract_and_tag_pdf docItems
  rw [tagPages_eq]
  simp

/-! ### Key shape, uniqueness, and dictionary behaviour -/

lemma pageItemsFrom_keys (p : Nat) :
    ∀ (blocks : List PdfBlock) (i : Nat) (k : String),
      k ∈ (pageItemsFrom p i blocks).map Prod.fst →
        ∃ j, i ≤ j ∧ k = mkTag p j := by
  intro blocks
  induction blocks with
  | nil => intro i k h; simp [pageItemsFrom] at h
  | cons b rest ih =>
    intro i k h
    by_cases hs : survives b
    · simp only [pageItemsFrom, hs, if_true, List.map_cons, List.mem_cons] at h
      rcases h with rfl | h
      · exact ⟨i, le_refl i, rfl⟩
      · obtain ⟨j, hj, hk⟩ := ih (i + 1) k h
        exact ⟨j, by omega, hk⟩
    · simp only [pageItemsFrom, hs, if_false, Bool.false_eq_true] at h
      obtain ⟨j, hj, hk⟩ := ih (i + 1) k h
      exact ⟨j, by omega, hk⟩

lemma pageItemsFrom_nodup (p : Nat) :
    ∀ (blocks : List PdfBlock) (i : Nat),
      ((pageItemsFrom p i blocks).map Prod.fst).Nodup := by
  intro blocks
  induction blocks with
  | nil => intro i; simp [pageItemsFrom]
  | cons b rest ih =>
    intro i
    by_cases hs : survives b
    · simp only [pageItemsFrom, hs, if_true, List.map_cons, List.nodup_cons]
      refine ⟨fun hmem => ?_, ih (i + 1)⟩
      obtain ⟨j, hj, hk⟩ := pageItemsFrom_keys p rest (i + 1) _ hmem
      obtain ⟨-, hij⟩ := mkTag_inj hk
      omega
    · simp only [pageItemsFrom, hs, if_false, Bool.false_eq_true]
      exact ih (i + 1)

lemma docItemsFrom_keys :
    ∀ (doc : List PdfPage) (pnum : Nat) (k : String),
      k ∈ (docItemsFrom pnum doc).map Prod.fst →
        ∃ q j, pnum ≤ q ∧ k = mkTag q j := by
  intro doc
  induction doc with
  | nil => intro pnum k h; simp [docItemsFrom] at h
  | cons pg rest ih =>
    intro pnum k h
    simp only [docItemsFrom, List.map_append, List.mem_append] at h
    rcases h with h | h
    · obtain ⟨j, -, hk⟩ := pageItemsFrom_keys pnum pg 0 k h
      exact ⟨pnum, j, le_refl pnum, hk⟩
    · obtain ⟨q, j, hq, hk⟩ := ih (pnum + 1) k h
      exact ⟨q, j, by omega, hk⟩

lemma docItemsFrom_nodup :
    ∀ (doc : List PdfPage) (pnum : Nat),
      ((docItemsFrom pnum doc).map Prod.fst).Nodup := by
  intro doc
  induction doc with
  | nil => intro pnum; simp [docItemsFrom]
  | cons pg rest ih =>
    intro pnum
    simp only [docItemsFrom, List.map_append]
    refine List.Nodup.append (pageItemsFrom_nodup pnum pg 0) (ih (pnum + 1))
      (fun k hk1 hk2 => ?_)
    obtain ⟨j, -, hk⟩ := pageItemsFrom_keys pnum pg 0 k hk1
    obtain ⟨q, j', hq, hk'⟩ := docItemsFrom_keys rest (pnum + 1) k hk2
    rw [hk] at hk'
    obtain ⟨hpq, -⟩ := mkTag_inj hk'
    omega

lemma docItems_nodup (doc : PdfDoc) :
    ((docItems doc).map Prod.fst).Nodup :=
  docItemsFrom_nodup doc 1

lemma dictInsert_of_fresh (m : List (String × String)) (k v : String)
    (h : ∀ kv ∈ m, kv.1 ≠ k) : dictInsert m k v = m ++ [(k, v)] := by
  unfold dictInsert
  rw [if_neg]
  simp only [List.any_eq_true, beq_iff_eq, not_exists, not_and]
  intro kv hkv
  exact h kv hkv

lemma insertAll_of_fresh :
    ∀ (l m : List (String × String)), ((l.map Prod.fst).Nodup) →
      (∀ kv ∈ m, ∀ it ∈ l, kv.1 ≠ it.1) → insertAll m l = m ++ l := by
  intro l
  induction l with
  | nil => intro m _ _; simp [insertAll]
  | cons it rest ih =>
    intro m hnd hfresh
    simp only [List.map_cons, List.nodup_cons] at hnd
    rw [insertAll_cons,
      dictInsert_of_fresh m it.1 it.2
        (fun kv hkv => hfresh kv hkv it (List.mem_cons_self it rest))]
    rw [ih (m ++ [(it.1, it.2)]) hnd.2 ?_]
    · simp
    · intro kv hkv it' hit'
      rcases List.mem_append.mp hkv with hkv | hkv
      · exact hfresh kv hkv it' (List.mem_cons_of_mem it hit')
      · simp only [List.mem_singleton] at hkv
        subst hkv
        intro hcontra
        exact hnd.1 (hcontra ▸ List.mem_map_of_mem Prod.fst hit')

lemma insertAll_nil (l : List (String × String))
    (h : ((l.map Prod.fst).Nodup)) : insertAll [] l = l := by
  rw [insertAll_of_fresh l [] h (by simp)]
  simp

lemma source_map_eq (doc : PdfDoc) :
    (extract_and_tag_pdf doc).2 = docItems doc := by
  rw [extract_eq]
  exact insertAll_nil _ (docItems_nodup doc)

lemma tagged_text_eq (doc : PdfDoc) :
    (extract_and_tag_pdf doc).1 = renderItems (docItems doc) := by
  rw [extract_eq]

lemma dictLookup_of_mem :
    ∀ (l : List (String × String)) (k v : String),
      ((l.map Prod.fst).Nodup) → (k, v) ∈ l → dictLookup l k = some v := by
  intro l
  induction l with
  | nil => intro k v _ h; simp at h
  | cons kv rest ih =>
    intro k v hnd hmem
    simp only [List.map_cons, List.nodup_cons] at hnd
    rcases List.mem_cons.mp hmem with rfl | hmem
    · simp [dictLookup]
    · by_cases hk : kv.1 = k
      · exfalso
        apply hnd.1
        rw [hk]
        exact List.mem_map_of_mem Prod.fst hmem
      · unfold dictLookup
        rw [List.find?_cons_of_neg _ (by simpa using hk)]
        exact ih k v hnd.2 hmem

lemma pageItemsFrom_get (p : Nat) :
    ∀ (blocks : List PdfBlock) (i0 j : Nat) (h : j < blocks.length),
      survives (blocks.get ⟨j, h⟩) = true →
        (mkTag p (i0 + j), pyStrip (blocks.get ⟨j, h⟩).text) ∈
          pageItemsFrom p i0 blocks := by
  intro blocks
  induction blocks with
  | nil => intro i0 j h; simp at h
  | cons b rest ih =>
    intro i0 j h hs
    cases j with
    | zero =>
      simp only [List.get] at hs ⊢
      simp only [pageItemsFrom, hs, if_true, Nat.add_zero]
      exact List.mem_cons_self _ _
    | succ j' =>
      have hj : j' < rest.length := by simpa using h
      have hmem := ih (i0 + 1) j' hj (by simpa using hs)
      have harith : i0 + (j' + 1) = i0 + 1 + j' := by omega
      rw [harith]
      by_cases hsb : survives b
      · simp only [pageItemsFrom, hsb, if_true, List.mem_cons]
        right
        simpa using hmem
      · simp only [pageItemsFrom, hsb, if_false, Bool.false_eq_true]
        simpa using hmem

lemma docItemsFrom_page :
    ∀ (doc : List PdfPage) (pnum pidx : Nat) (h : pidx < doc.length)
      (x : String × String),
      x ∈ pageItemsFrom (pnum + pidx) 0 (doc.get ⟨pidx, h⟩) →
        x ∈ docItemsFrom pnum doc := by
  intro doc
  induction doc with
  | nil => intro pnum pidx h; simp at h
  | cons pg rest ih =>
    intro pnum pidx h x hx
    cases pidx with
    | zero =>
      simp only [List.get, Nat.add_zero] at hx
      simp only [docItemsFrom, List.mem_append]
      left
      exact hx
    | succ pidx' =>
      simp only [docItemsFrom, List.mem_append]
      right
      have hp : pidx' < rest.length := by simpa using h
      have harith : pnum + (pidx' + 1) = pnum + 1 + pidx' := by omega
      rw [harith] at hx
      exact ih (pnum + 1) pidx' hp x (by simpa using hx)

/-! ### The SOURCE popover of the EXECUTIVE BRIEF tab (`app.py` 509-519):
citation display against the session `source_map`. -/

/-- `valid_sources = [sid for sid in source_ids if sid in st.session_state.source_map]`
(`app.py` line 513). -/
def valid_sources (source_ids : List String)
    (source_map : List (String × String)) : List String :=
  source_ids.filter (fun sid => (dictLookup source_map sid).isSome)

/-- The rendered SOURCE popover contents (`app.py` lines 514-517): one
`(REF ID, original text)` row per element of `valid_sources`. -/
def renderSourceDisplay (source_ids : List String)
    (source_map : List (String × String)) : List (String × String) :=
  (valid_sources source_ids source_map).map
    (fun sid => (sid, (dictLookup source_map sid).getD ""))

/-! ### Fenced-code cleanup (`server.py` 133-137) -/

/-- Python `str.startswith`, as a prefix test on the character list. -/
def pyStartsWith (s pre : String) : Bool :=
  pre.data.isPrefixOf s.data

/-- The markdown code-block cleanup of `process_document`
(`server.py` lines 133-137): when the stripped response starts with a
triple-backtick fence, the `re.sub` collaborator (abstracted as `sub`,
since the regex engine is an external library) is applied to the
stripped string; otherwise the response is left untouched. -/
def strip_code_fence (sub : String → String) (s : String) : String :=
  if pyStartsWith (pyStrip s) "```" then sub (pyStrip s) else s

/-! ### Evidence extraction of `/api/chat` (`server.py` 156-185) -/

/-- One attempt of the regex `\[\[P\d+_\d+\]\]` at the head of the
character list: on success, the matched characters and the remainder. -/
def matchTag : List Char → Option (List Char × List Char)
  | '[' :: '[' :: 'P' :: rest =>
    if (rest.takeWhile Char.isDigit).isEmpty then none
    else
      match rest.dropWhile Char.isDigit with
      | '_' :: r2 =>
        if (r2.takeWhile Char.isDigit).isEmpty then none
        else
          match r2.dropWhile Char.isDigit with
          | ']' :: ']' :: r4 =>
            some ('[' :: '[' :: 'P' ::
              (rest.takeWhile Char.isDigit ++
                '_' :: (r2.takeWhile Char.isDigit ++ [']', ']'])), r4)
          | _ => none
      | _ => none
  | _ => none

/-- `re.findall(r'\[\[P\d+_\d+\]\]', s)`: scan left to right, collecting
non-overlapping leftmost matches.  `fuel` bounds the scan (it is started
at the length of the string, which suffices since every step consumes at
least one character). -/
def findTagsAux : Nat → List Char → List String
  | 0, _ => []
  | _ + 1, [] => []
  | fuel + 1, c :: cs =>
    match matchTag (c :: cs) with
    | some (m, rest) => String.mk m :: findTagsAux fuel rest
    | none => findTagsAux fuel cs

/-- All `[[P<digits>_<digits>]]` identifiers occurring in `s`, in order. -/
def findTags (s : String) : List String :=
  findTagsAux s.data.length s.data

/-- Python `", ".join(l)`. -/
def commaJoin : List String → String
  | [] => ""
  | [t] => t
  | t :: u :: rest => t ++ ", " ++ commaJoin (u :: rest)

/-- The `evidence` value returned by the `/api/chat` handler
(`server.py` lines 177-182):
`", ".join(re.findall(r'\[\[P\d+_\d+\]\]', answer)) or "Based on document context"`;
the Python `or` takes the right operand exactly when the join is the
empty (falsy) string. -/
def chat_evidence (answer : String) : String :=
  let e := commaJoin (findTags answer)
  if e = "" then "Based on document context" else e

/-! ### Retry orchestration of `summarize_with_gemini` (`app.py` 110-132) -/

/-- Occurrence of `needle` as a contiguous substring: Python `needle in hay`. -/
def listContains (needle : List Char) : List Char → Bool
  | [] => needle.isEmpty
  | c :: rest => needle.isPrefixOf (c :: rest) || listContains needle rest

/-- Python `"429" in error_str`, generalized to any needle. -/
def strContains (hay needle : String) : Bool :=
  listContains needle.data hay.data

/-- The `for attempt in range(max_retries)` loop of
`summarize_with_gemini` (`app.py` lines 114-132).  The LLM collaborator
is the oracle `call`, giving for each attempt number either the response
text or the exception message.  Returns the function's result
(`some text`, or `none` for the two `st.error(...); return None` exits)
together with the list of `time.sleep` durations, in order.  The
`st.warning` progress message accompanying each sleep is presentation
only and is not modelled. -/
def runAttempts (call : Nat → Except String String)
    (baseDelay maxRetries : Nat) : List Nat → Option String × List Nat
  | [] => (none, [])
  | attempt :: rest =>
    match call attempt with
    | Except.ok t => (some t, [])
    | Except.error e =>
      if strContains e "429" then
        if attempt < maxRetries - 1 then
          let sleepTime := baseDelay * 2 ^ attempt
          let r := runAttempts call baseDelay maxRetries rest
          (r.1, sleepTime :: r.2)
        else (none, [])
      else (none, [])

/-- `summarize_with_gemini`'s control flow: `max_retries = 3`,
`base_delay = 5` seconds (`app.py` lines 111-112). -/
def summarize_with_gemini (call : Nat → Except String String) :
    Option String × List Nat :=
  runAttempts call 5 3 (List.range 3)

lemma pageItemsFrom_nil_of_none (p : Nat) :
    ∀ (blocks : List PdfBlock) (i : Nat), (∀ b ∈ blocks, survives b = false) →
      pageItemsFrom p i blocks = [] := by
  intro blocks
  induction blocks with
  | nil => intro i _; rfl
  | cons b rest ih =>
    intro i h
    have hb : survives b = false := h b (List.mem_cons_self b rest)
    simp only [pageItemsFrom, hb, Bool.false_eq_true, if_false]
    exact ih (i + 1) (fun b' hb' => h b' (List.mem_cons_of_mem b hb'))

lemma docItemsFrom_nil_of_none :
    ∀ (doc : List PdfPage) (pnum : Nat),
      (∀ pg ∈ doc, ∀ b ∈ pg, survives b = false) →
        docItemsFrom pnum doc = [] := by
  intro doc
  induction doc with
  | nil => intro pnum _; rfl
  | cons pg rest ih =>
    intro pnum h
    simp only [docItemsFrom]
    rw [pageItemsFrom_nil_of_none pnum pg 0 (h pg (List.mem_cons_self pg rest)),
      ih (pnum + 1) (fun pg' hpg' => h pg' (List.mem_cons_of_mem pg hpg'))]
    rfl

lemma matchTag_ne_empty :
    ∀ (l m rest : List Char), matchTag l = some (m, rest) →
      String.mk m ≠ "" := by
  intro l m rest h
  unfold matchTag at h
  split at h
  · split at h
    · exact absurd h (by simp)
    · split at h
      · split at h
        · exact absurd h (by simp)
        · split at h
          · simp only [Option.some.injEq, Prod.mk.injEq] at h
            obtain ⟨hm, -⟩ := h
            subst hm
            intro hcontra
            have := congrArg String.data hcontra
            simp at this
          · exact absurd h (by simp)
      · exact absurd h (by simp)
  · exact absurd h (by simp)

lemma findTagsAux_ne_empty :
    ∀ (fuel : Nat) (cs : List Char) (t : String),
      t ∈ findTagsAux fuel cs → t ≠ "" := by
  intro fuel
  induction fuel with
  | zero => intro cs t ht; simp [findTagsAux] at ht
  | succ f ih =>
    intro cs t ht
    cases cs with
    | nil => simp [findTagsAux] at ht
    | cons c cs' =>
      rw [findTagsAux] at ht
      cases hm : matchTag (c :: cs') with
      | none => rw [hm] at ht; exact ih cs' t ht
      | some pr =>
        obtain ⟨m, rest⟩ := pr
        rw [hm] at ht
        simp only [List.mem_cons] at ht
        rcases ht with rfl | ht
        · exact matchTag_ne_empty (c :: cs') m rest hm
        · exact ih rest t ht

lemma commaJoin_ne_empty (t : String) (ts : List String) (h : t ≠ "") :
    commaJoin (t :: ts) ≠ "" := by
  cases ts with
  | nil => simpa [commaJoin] using h
  | cons u rest =>
    simp only [commaJoin]
    intro hc
    have hd := congrArg String.data hc
    simp only [String.data_append] at hd
    rcases List.append_eq_nil.mp hd with ⟨hd1, -⟩
    rcases List.append_eq_nil.mp hd1 with ⟨-, hd2⟩
    simp at hd2

/-! ## Claims -/

/-- Claim C1, counterexample: a key point citing the identifier
`[[P9_9]]` against an empty source_map.  The SOURCE display of the
EXECUTIVE BRIEF tab (`app.py` 509-519) filters the cited identifiers to
the valid ones (`valid_sources`, line 513) and renders only those, so
the invalid identifier is not flagged in the rendered output — it is
silently dropped, contrary to the claim. -/
theorem c1_invalid_citation_dropped :
    renderSourceDisplay ["[[P9_9]]"] [] = [] ∧
      "[[P9_9]]" ∉ (renderSourceDisplay ["[[P9_9]]"] []).map Prod.fst := by
  constructor
  · rfl
  · decide

/-- Claim C1, amended: for every key point's cited identifier list and
every source_map, a cited identifier bound in the source_map is rendered
alongside its original block text, while a cited identifier absent from
the source_map is silently omitted from the rendered SOURCE display
(it is not flagged, yields no resolved text, and no exception is raised
— the display function is total). -/
theorem c1_citation_display (ids : List String)
    (sm : List (String × String)) (sid : String) :
    (∀ t, dictLookup sm sid = some t → sid ∈ ids →
      (sid, t) ∈ renderSourceDisplay ids sm) ∧
    (dictLookup sm sid = none →
      sid ∉ (renderSourceDisplay ids sm).map Prod.fst) := by
  constructor
  · intro t hl hmem
    unfold renderSourceDisplay valid_sources
    refine List.mem_map.mpr ⟨sid, List.mem_filter.mpr ⟨hmem, by simp [hl]⟩, ?_⟩
    simp [hl]
  · intro hl hmem
    unfold renderSourceDisplay valid_sources at hmem
    simp only [List.map_map, Function.comp] at hmem
    have : sid ∈ ids.filter (fun s => (dictLookup sm s).isSome) := by
      simpa using hmem
    have := (List.mem_filter.mp this).2
    rw [hl] at this
    simp at this

/-- Claim C1, witness for the amended theorem: a valid identifier is
rendered with its original text. -/
theorem c1_citation_display_witness :
    ("[[P1_0]]", "Alpha.") ∈
      renderSourceDisplay ["[[P1_0]]"] [("[[P1_0]]", "Alpha.")] :=
  (c1_citation_display ["[[P1_0]]"] [("[[P1_0]]", "Alpha.")] "[[P1_0]]").1
    "Alpha." (by decide) (by decide)

/-- Claim C2: round-trip citation.  The tagged_text produced by
`extract_and_tag_pdf` is exactly the concatenation, over the minted
`(identifier, stripped text)` pairs in extraction order, of the segments
`identifier ++ " " ++ text ++ "\n\n"`; and looking any minted identifier
up in the produced source_map returns exactly that text — the text that
immediately follows the identifier in tagged_text up to the blank-line
separator. -/
theorem c2_round_trip_citation (doc : PdfDoc) :
    (extract_and_tag_pdf doc).1 = renderItems (docItems doc) ∧
    ∀ it ∈ docItems doc,
      dictLookup (extract_and_tag_pdf doc).2 it.1 = some it.2 := by
  refine ⟨tagged_text_eq doc, fun it hit => ?_⟩
  rw [source_map_eq]
  exact dictLookup_of_mem _ _ _ (docItems_nodup doc) (by simpa using hit)

/-- Claim C2, witness: on the two-page Alpha/Beta document the minted
identifier resolves back to its block text. -/
theorem c2_round_trip_citation_witness :
    dictLookup (extract_and_tag_pdf [[⟨"Alpha.", 0⟩], [⟨"Beta.", 0⟩]]).2
      "[[P1_0]]" = some "Alpha." :=
  (c2_round_trip_citation [[⟨"Alpha.", 0⟩], [⟨"Beta.", 0⟩]]).2
    ("[[P1_0]]", "Alpha.") (by decide)

/-- Claim C3: identifier uniqueness.  The source_map built by
`extract_and_tag_pdf` has pairwise distinct identifiers and exactly one
entry per surviving block, in extraction order (`docItems` lists one
`(tag, text)` pair per surviving block of the document). -/
theorem c3_identifier_uniqueness (doc : PdfDoc) :
    ((extract_and_tag_pdf doc).2.map Prod.fst).Nodup ∧
      (extract_and_tag_pdf doc).2 = docItems doc := by
  rw [source_map_eq]
  exact ⟨docItems_nodup doc, rfl⟩

/-- Claim C4: raw-index tagging.  For the block at position `j` of the
original, unfiltered block list of page `pidx` (0-based; images and
blank blocks count), if that block survives the filter then the
source_map binds the tag minted from the raw index `j` — `[[P(pidx+1)_j]]`
— to that block's stripped text. -/
theorem c4_raw_index_identifiers (doc : PdfDoc) (pidx j : Nat)
    (hp : pidx < doc.length) (hj : j < (doc.get ⟨pidx, hp⟩).length)
    (hs : survives ((doc.get ⟨pidx, hp⟩).get ⟨j, hj⟩) = true) :
    dictLookup (extract_and_tag_pdf doc).2 (mkTag (pidx + 1) j) =
      some (pyStrip ((doc.get ⟨pidx, hp⟩).get ⟨j, hj⟩).text) := by
  rw [source_map_eq]
  apply dictLookup_of_mem _ _ _ (docItems_nodup doc)
  have h1 := pageItemsFrom_get (pidx + 1) (doc.get ⟨pidx, hp⟩) 0 j hj hs
  rw [Nat.zero_add] at h1
  have hcomm : pidx + 1 = 1 + pidx := Nat.add_comm pidx 1
  rw [hcomm]
  exact docItemsFrom_page doc 1 pidx hp _ (by rw [← hcomm]; exact h1)

/-- Claim C4, witness: a page whose raw block list is an image block
followed by a text block.  The surviving text block is the first
surviving block but sits at raw index 1, and its tag is `[[P1_1]]`
(not the post-filter `[[P1_0]]`). -/
theorem c4_raw_index_identifiers_witness :
    dictLookup (extract_and_tag_pdf [[⟨"figure", 1⟩, ⟨"Hello", 0⟩]]).2
        (mkTag 1 1) = some "Hello" ∧
      mkTag 1 1 = "[[P1_1]]" ∧
      dictLookup (extract_and_tag_pdf [[⟨"figure", 1⟩, ⟨"Hello", 0⟩]]).2
        (mkTag 1 0) = none :=
  ⟨c4_raw_index_identifiers [[⟨"figure", 1⟩, ⟨"Hello", 0⟩]] 0 1
      (by decide) (by decide) (by decide),
    by decide, by decide⟩

/-- Claim C5: the two-page scenario.  A document whose parser report is
one text block per page with texts "Alpha." and "Beta." extracts to
exactly the stated tagged_text and source_map. -/
theorem c5_two_page_scenario :
    extract_and_tag_pdf [[⟨"Alpha.", 0⟩], [⟨"Beta.", 0⟩]] =
      ("[[P1_0]] Alpha.\n\n[[P2_0]] Beta.\n\n",
        [("[[P1_0]]", "Alpha."), ("[[P2_0]]", "Beta.")]) := by
  decide

/-- Claim C6: determinism.  Extraction is a pure function of the
parser-reported document (the embedded code holds no cross-run state),
so two runs on the same parsed input produce byte-identical tagged_text,
the same identifier keys in the same order, and the same value for every
lookup. -/
theorem c6_extraction_deterministic (doc1 doc2 : PdfDoc) (h : doc1 = doc2) :
    (extract_and_tag_pdf doc1).1.data = (extract_and_tag_pdf doc2).1.data ∧
    (extract_and_tag_pdf doc1).2.map Prod.fst =
      (extract_and_tag_pdf doc2).2.map Prod.fst ∧
    ∀ k, dictLookup (extract_and_tag_pdf doc1).2 k =
      dictLookup (extract_and_tag_pdf doc2).2 k := by
  subst h
  exact ⟨rfl, rfl, fun _ => rfl⟩

/-- Claim C6, witness: the two runs agree on a concrete document and a
concrete key. -/
theorem c6_extraction_deterministic_witness :
    (extract_and_tag_pdf [[⟨"Alpha.", 0⟩]]).1.data =
        (extract_and_tag_pdf [[⟨"Alpha.", 0⟩]]).1.data ∧
      dictLookup (extract_and_tag_pdf [[⟨"Alpha.", 0⟩]]).2 "[[P1_0]]" =
        dictLookup (extract_and_tag_pdf [[⟨"Alpha.", 0⟩]]).2 "[[P1_0]]" :=
  ⟨(c6_extraction_deterministic [[⟨"Alpha.", 0⟩]] [[⟨"Alpha.", 0⟩]] rfl).1,
    (c6_extraction_deterministic [[⟨"Alpha.", 0⟩]] [[⟨"Alpha.", 0⟩]] rfl).2.2
      "[[P1_0]]"⟩

/-- Claim C7: format-cleanup idempotence on clean input.  When the
stripped response does not start with a triple-backtick fence — in
particular for any already-clean JSON payload — the cleanup step of
`process_document` returns the response unchanged, whatever the regex
substitution collaborator does. -/
theorem c7_strip_fence_clean (sub : String → String) (s : String)
    (h : pyStartsWith (pyStrip s) "```" = false) :
    strip_code_fence sub s = s := by
  unfold strip_code_fence
  simp [h]

/-- Claim C7, witness: a clean JSON array payload is returned unchanged
(instantiating the substitution collaborator with the identity). -/
theorem c7_strip_fence_clean_witness :
    strip_code_fence (fun r => r) "[1, 2, 3]" = "[1, 2, 3]" :=
  c7_strip_fence_clean (fun r => r) "[1, 2, 3]" (by decide)

/-- Claim C8, counterexample: an answer containing zero identifiers.
The handler computes `", ".join(findall(...)) or "Based on document context"`,
so the returned evidence is the fallback string, not the comma-join of
the empty list (the empty string) as the claim states. -/
theorem c8_evidence_zero_tags_counterexample :
    chat_evidence "The document describes a lease." =
        "Based on document context" ∧
      commaJoin (findTags "The document describes a lease.") = "" ∧
      chat_evidence "The document describes a lease." ≠
        commaJoin (findTags "The document describes a lease.") := by
  refine ⟨by decide, by decide, by decide⟩

/-- Claim C8, amended: for every answer text, the returned evidence
equals the comma-joined list of identifiers matching `[[P<digits>_<digits>]]`
found in the answer when at least one is found, and the fallback string
"Based on document context" when the answer contains zero identifiers. -/
theorem c8_evidence_join (answer : String) :
    chat_evidence answer =
      if findTags answer = [] then "Based on document context"
      else commaJoin (findTags answer) := by
  unfold chat_evidence
  cases hf : findTags answer with
  | nil => simp [commaJoin]
  | cons t ts =>
    have ht : t ≠ "" :=
      findTagsAux_ne_empty answer.data.length answer.data t
        (by rw [show findTagsAux answer.data.length answer.data =
          findTags answer from rfl, hf]; exact List.mem_cons_self t ts)
    have hne : commaJoin (t :: ts) ≠ "" := commaJoin_ne_empty t ts ht
    simp [hf, hne]

/-- Claim C9: retry orchestration.  When the LLM oracle raises a
429-containing error on attempts 0 and 1 and succeeds on attempt 2,
`summarize_with_gemini` returns the successful response text and sleeps
exactly twice, with exponentially growing delays 5 and 10 seconds
(base_delay * 2^attempt). -/
theorem c9_retry_on_429 (call : Nat → Except String String) (e0 e1 t : String)
    (h0 : call 0 = Except.error e0) (h0c : strContains e0 "429" = true)
    (h1 : call 1 = Except.error e1) (h1c : strContains e1 "429" = true)
    (h2 : call 2 = Except.ok t) :
    summarize_with_gemini call = (some t, [5, 10]) := by
  have hr : List.range 3 = [0, 1, 2] := rfl
  simp only [summarize_with_gemini, hr, runAttempts, h0, h1, h2, h0c, h1c,
    if_true]
  norm_num

/-- Claim C9, witness: a concrete oracle failing twice with a quota
error then succeeding. -/
theorem c9_retry_on_429_witness :
    summarize_with_gemini
        (fun n => match n with
          | 0 => Except.error "429 Quota exceeded"
          | 1 => Except.error "429 Quota exceeded"
          | _ => Except.ok "ok") =
      (some "ok", [5, 10]) :=
  c9_retry_on_429 _ "429 Quota exceeded" "429 Quota exceeded" "ok"
    rfl (by decide) rfl (by decide) rfl

/-- Claim C10: a parseable document with no surviving text block (for
example an image-only document) extracts without failing to the empty
tagged_text and the empty source_map; the server variant additionally
reports the document's page count. -/
theorem c10_no_text_blocks (doc : PdfDoc)
    (h : ∀ pg ∈ doc, ∀ b ∈ pg, survives b = false) :
    extract_and_tag_pdf doc = ("", []) ∧
      extract_and_tag_pdf_server doc = ("", [], doc.length) := by
  have hitems : docItems doc = [] := docItemsFrom_nil_of_none doc 1 h
  have hext : extract_and_tag_pdf doc = ("", []) := by
    rw [extract_eq, hitems]
    rfl
  refine ⟨hext, ?_⟩
  show ((extract_and_tag_pdf doc).1, (extract_and_tag_pdf doc).2, doc.length)
    = ("", [], doc.length)
  rw [hext]

/-- Claim C10, witness: a one-page document containing only an image
block. -/
theorem c10_no_text_blocks_witness :
    extract_and_tag_pdf [[⟨"figure", 1⟩]] = ("", []) ∧
      extract_and_tag_pdf_server [[⟨"figure", 1⟩]] = ("", [], 1) :=
  c10_no_text_blocks [[⟨"figure", 1⟩]] (by decide)
